import Mathlib

/-!
Verification of the NetLens capture/classify/redact/contextualize/replay core.

Each TypeScript function of the repository that the claims touch is embedded as
an executable Lean definition, keeping the source's names and branch structure.
JavaScript strings are modelled as Lean `String` (or `List Char` where string
surgery is involved), JS numbers as `Nat`/`Int` (the claims only exercise
integer-valued cases), JS `Set` as `Finset String`, JS objects used as string
maps (`Record<string, string>`) as insertion-ordered association lists, and
fallible JS operations as `Option`.
-/

namespace NetLens

/-! ## Generic JS string-operation helpers (shared by several components) -/

/-- Boolean test that `p` begins `l` (case-sensitive). -/
def pfxB : List Char → List Char → Bool
  | [], _ => true
  | _ :: _, [] => false
  | a :: as, b :: bs => a == b && pfxB as bs

theorem pfxB_iff : ∀ (p l : List Char), pfxB p l = true ↔ p <+: l
  | [], l => by
    simp only [pfxB]
    exact ⟨fun _ => ⟨l, rfl⟩, fun _ => trivial⟩
  | a :: as, [] => by
    simp only [pfxB]
    constructor
    · intro h
      exact absurd h (by simp)
    · rintro ⟨t, ht⟩
      exact absurd ht (by simp)
  | a :: as, b :: bs => by
    simp only [pfxB, Bool.and_eq_true, beq_iff_eq, pfxB_iff as bs]
    constructor
    · rintro ⟨rfl, t, rfl⟩
      exact ⟨t, rfl⟩
    · rintro ⟨t, ht⟩
      injection ht with h1 h2
      exact ⟨h1, t, h2⟩

/-- Index of the first occurrence of `pat` in `l` (JS `String.prototype.indexOf`
on code units, restricted to the character lists we model); `none` models `-1`. -/
def firstIdx (pat : List Char) : List Char → Option Nat
  | [] => if pat = [] then some 0 else none
  | c :: cs => if pfxB pat (c :: cs) then some 0 else (firstIdx pat cs).map (· + 1)

/-- Index of the last occurrence of `pat` in `l` (JS `String.prototype.lastIndexOf`);
`none` models `-1`. -/
def lastIdx (pat l : List Char) : Option Nat :=
  (List.range (l.length + 1)).reverse.find? (fun i => pfxB pat (l.drop i))

/-- JS `String.prototype.includes` on character lists. -/
def containsL (needle hay : List Char) : Bool :=
  (firstIdx needle hay).isSome

/-- JS `String.prototype.includes` for `String`s. -/
def containsStr (needle hay : String) : Bool :=
  containsL needle.data hay.data

/-- JS `String.prototype.toLowerCase` on the ASCII strings we model. -/
def jsToLower (s : String) : String :=
  ⟨s.data.map Char.toLower⟩

/-- JS `String.prototype.toUpperCase` on the ASCII strings we model. -/
def jsToUpper (s : String) : String :=
  ⟨s.data.map Char.toUpper⟩

/-- JS `String.prototype.startsWith` for `String`s. -/
def startsWithStr (s pre : String) : Bool :=
  pfxB pre.data s.data

/-- JS `Array.prototype.slice(-k)` (take the last `k` elements); `slice(-0)` is
`slice(0)`, which returns the whole array. -/
def jsSliceNeg (k : Nat) (l : List α) : List α :=
  if k = 0 then l else l.drop (l.length - k)

/-! ## Data model (`src/lib/utils/types.ts`) -/

/-- Phase-timing breakdown of one request (interface `RequestTiming`). -/
structure RequestTiming where
  blocked : Nat
  dns : Nat
  connect : Nat
  ssl : Nat
  send : Nat
  wait : Nat
  receive : Nat
deriving DecidableEq

/-- The canonical record of one exchange (interface `NetworkRequest`).  The
optional lazy-loading closure `getFullResponseBody?` is modelled by the flag
`hasBodyLoader` recording whether the closure is present. -/
structure NetworkRequest where
  id : String
  timestamp : Int
  method : String
  url : String
  requestHeaders : List (String × String)
  requestBody : Option String
  requestBodySize : Nat
  status : Nat
  statusText : String
  responseHeaders : List (String × String)
  responseBody : Option String
  responseBodySize : Int
  responseMimeType : String
  timing : RequestTiming
  duration : Nat
  isGraphQL : Bool
  isWebSocket : Bool
  isReplayed : Bool
  resourceType : String
  hasFullResponseBody : Bool
  hasBodyLoader : Bool
deriving DecidableEq

/-! ## Capture store (`src/stores/requests.ts`, shown in `src/stores/ui.ts`) -/

/-- The state slice held by `useRequestsStore`. -/
structure RequestsState where
  requests : List NetworkRequest
  favorites : Finset String
  selected : Finset String
  isPaused : Bool
  maxRequests : Nat
  searchQuery : String
deriving DecidableEq

/-- The store's initial state. -/
def initialRequestsState : RequestsState :=
  { requests := []
    favorites := ∅
    selected := ∅
    isPaused := false
    maxRequests := 500
    searchQuery := "" }

/-- Store action `addRequest`: drop when paused, otherwise append; on overflow
evict from the front (`slice(-maxRequests)`) and purge evicted ids from both
side tables. -/
def addRequest (state : RequestsState) (request : NetworkRequest) : RequestsState :=
  if state.isPaused then state
  else if (state.requests ++ [request]).length > state.maxRequests then
    { state with
        requests := jsSliceNeg state.maxRequests (state.requests ++ [request])
        favorites := state.favorites.filter (fun id =>
          id ∉ ((state.requests ++ [request]).take
            ((state.requests ++ [request]).length - state.maxRequests)).map (·.id))
        selected := state.selected.filter (fun id =>
          id ∉ ((state.requests ++ [request]).take
            ((state.requests ++ [request]).length - state.maxRequests)).map (·.id)) }
  else
    { state with requests := state.requests ++ [request] }

/-- Store action `removeRequest`. -/
def removeRequest (state : RequestsState) (id : String) : RequestsState :=
  { state with
      requests := state.requests.filter (fun r => r.id ≠ id)
      favorites := state.favorites.erase id
      selected := state.selected.erase id }

/-- Store action `clearRequests`. -/
def clearRequests (state : RequestsState) : RequestsState :=
  { state with requests := [], favorites := ∅, selected := ∅ }

/-- Store action `toggleSelected`: flips membership of `id` in the selected set
(the source performs no check that `id` names a stored request). -/
def toggleSelected (state : RequestsState) (id : String) : RequestsState :=
  { state with
      selected :=
        if id ∈ state.selected then state.selected.erase id
        else insert id state.selected }

/-- Selector `getFilteredRequests`. -/
def getFilteredRequests (state : RequestsState) : List NetworkRequest :=
  if state.searchQuery.trim = "" then state.requests
  else
    let query := jsToLower state.searchQuery
    state.requests.filter (fun r =>
      containsStr query (jsToLower r.url) || containsStr query (jsToLower r.method) ||
        containsStr query (toString r.status))

/-- Store action `selectAll`: selection becomes exactly the filtered ids. -/
def selectAll (state : RequestsState) : RequestsState :=
  { state with selected := ((getFilteredRequests state).map (·.id)).toFinset }

/-- Store action `deselectAll`. -/
def deselectAll (state : RequestsState) : RequestsState :=
  { state with selected := ∅ }

/-- Store action `setSelected`. -/
def setSelected (state : RequestsState) (ids : List String) : RequestsState :=
  { state with selected := ids.toFinset }

/-- Store action `toggleFavorite`: flips membership of `id` in the favorites set
(the source performs no check that `id` names a stored request). -/
def toggleFavorite (state : RequestsState) (id : String) : RequestsState :=
  { state with
      favorites :=
        if id ∈ state.favorites then state.favorites.erase id
        else insert id state.favorites }

/-- Store action `clearFavorites`. -/
def clearFavorites (state : RequestsState) : RequestsState :=
  { state with favorites := ∅ }

/-- Store action `setPaused`. -/
def setPaused (state : RequestsState) (paused : Bool) : RequestsState :=
  { state with isPaused := paused }

/-- Store action `setMaxRequests`: when the new limit is below the current
length, trim from the front and purge the evicted ids. -/
def setMaxRequests (state : RequestsState) (max : Nat) : RequestsState :=
  if max < state.requests.length then
    { state with
        maxRequests := max
        requests := jsSliceNeg max state.requests
        favorites := state.favorites.filter (fun id =>
          id ∉ (state.requests.take (state.requests.length - max)).map (·.id))
        selected := state.selected.filter (fun id =>
          id ∉ (state.requests.take (state.requests.length - max)).map (·.id)) }
  else
    { state with maxRequests := max }

/-- Folding `addRequest` over a list of records models a sequence of admissions. -/
def admitAll (state : RequestsState) (records : List NetworkRequest) : RequestsState :=
  records.foldl addRequest state

/-- A sample record used to instantiate store theorems on concrete inputs. -/
def mkReq (id : String) : NetworkRequest :=
  { id := id
    timestamp := 0
    method := "GET"
    url := "https://example.com/api"
    requestHeaders := []
    requestBody := none
    requestBodySize := 0
    status := 200
    statusText := "OK"
    responseHeaders := []
    responseBody := none
    responseBodySize := 0
    responseMimeType := "application/json"
    timing := ⟨0, 0, 0, 0, 0, 0, 0⟩
    duration := 0
    isGraphQL := false
    isWebSocket := false
    isReplayed := false
    resourceType := "fetch"
    hasFullResponseBody := false
    hasBodyLoader := false }

/-! ## Capture store lemmas -/

theorem jsSliceNeg_of_pos {C : Nat} (h : 0 < C) (l : List α) :
    jsSliceNeg C l = l.drop (l.length - C) := by
  simp [jsSliceNeg, Nat.pos_iff_ne_zero.mp h]

/-- Every element of a list lies in its evicted-front part or its kept-suffix part
as computed by `addRequest` / `setMaxRequests`. -/
theorem mem_take_or_jsSliceNeg {x : List α} {C : Nat} {a : α} (ha : a ∈ x) :
    a ∈ x.take (x.length - C) ∨ a ∈ jsSliceNeg C x := by
  rcases Nat.eq_zero_or_pos C with h0 | h0
  · right; simpa [jsSliceNeg, h0] using ha
  · rw [jsSliceNeg_of_pos h0]
    simpa [← List.mem_append, List.take_append_drop] using ha

theorem addRequest_isPaused (s : RequestsState) (r : NetworkRequest) :
    (addRequest s r).isPaused = s.isPaused := by
  unfold addRequest; split; · rfl
  split <;> rfl

theorem addRequest_maxRequests (s : RequestsState) (r : NetworkRequest) :
    (addRequest s r).maxRequests = s.maxRequests := by
  unfold addRequest; split; · rfl
  split <;> rfl

/-- After one un-paused admission the sequence is exactly the capacity-sized
suffix of the old sequence with the new record appended. -/
theorem addRequest_requests (s : RequestsState) (r : NetworkRequest)
    (hp : s.isPaused = false) (h0 : 0 < s.maxRequests) :
    (addRequest s r).requests =
      (s.requests ++ [r]).drop ((s.requests ++ [r]).length - s.maxRequests) := by
  unfold addRequest
  rw [if_neg (by simp [hp])]
  by_cases hgt : (s.requests ++ [r]).length > s.maxRequests
  · rw [if_pos hgt]
    exact jsSliceNeg_of_pos h0 _
  · rw [if_neg hgt]
    have h : s.requests.length + 1 - s.maxRequests = 0 := by
      simp at hgt; omega
    simp [h]

theorem addRequest_requests_length_le (s : RequestsState) (r : NetworkRequest)
    (h0 : 0 < s.maxRequests) (hinv : s.requests.length ≤ s.maxRequests) :
    (addRequest s r).requests.length ≤ s.maxRequests := by
  unfold addRequest
  split
  · exact hinv
  · by_cases hgt : (s.requests ++ [r]).length > s.maxRequests
    · rw [if_pos hgt]
      simp only [jsSliceNeg_of_pos h0, List.length_drop]
      omega
    · rw [if_neg hgt]
      simpa using Nat.le_of_not_lt hgt

/-- Membership in the side tables after one un-paused admission: an id survives
exactly when it was there before and is not the id of an evicted record. -/
theorem addRequest_sideTables (s : RequestsState) (r : NetworkRequest)
    (hp : s.isPaused = false) (id : String) :
    (id ∈ (addRequest s r).favorites ↔ id ∈ s.favorites ∧
        id ∉ (((s.requests ++ [r]).take ((s.requests ++ [r]).length - s.maxRequests)).map
          (·.id))) ∧
    (id ∈ (addRequest s r).selected ↔ id ∈ s.selected ∧
        id ∉ (((s.requests ++ [r]).take ((s.requests ++ [r]).length - s.maxRequests)).map
          (·.id))) := by
  unfold addRequest
  rw [if_neg (by simp [hp])]
  by_cases hgt : (s.requests ++ [r]).length > s.maxRequests
  · rw [if_pos hgt]
    constructor <;> exact Finset.mem_filter
  · rw [if_neg hgt]
    have h : s.requests.length + 1 - s.maxRequests = 0 := by
      simp at hgt; omega
    simp [h]

theorem drop_sub_append (x m : List α) (C : Nat) :
    (x.drop (x.length - C) ++ m).drop ((x.drop (x.length - C) ++ m).length - C) =
      (x ++ m).drop ((x ++ m).length - C) := by
  rcases le_or_lt C x.length with hC | hC
  · have h1 : (x.drop (x.length - C) ++ m).length - C = m.length := by
      simp; omega
    have h4 : ((x ++ m).drop (x.length - C)).drop m.length =
        (x ++ m).drop ((x ++ m).length - C) := by
      rw [List.drop_drop]
      congr 1
      simp; omega
    rw [h1, ← h4, List.drop_append_of_le_length (by omega : x.length - C ≤ x.length)]
  · have hd : x.length - C = 0 := by omega
    simp [hd]

theorem take_sub_append (x m : List α) (C : Nat) :
    (x ++ m).take ((x ++ m).length - C) =
      x.take (x.length - C) ++
        (x.drop (x.length - C) ++ m).take ((x.drop (x.length - C) ++ m).length - C) := by
  rcases le_or_lt C x.length with hC | hC
  · have h1 : (x.drop (x.length - C) ++ m).length - C = m.length := by
      simp; omega
    have h2 : (x ++ m).length - C = (x.length - C) + m.length := by
      simp; omega
    rw [h1, h2, List.take_add,
      List.take_append_of_le_length (by omega : x.length - C ≤ x.length),
      List.drop_append_of_le_length (by omega : x.length - C ≤ x.length)]
  · have hd : x.length - C = 0 := by omega
    simp [hd]

set_option maxHeartbeats 1000000 in
/-- Folding admissions over an un-paused store keeps exactly the capacity-sized
suffix of everything seen, and an id survives in a side table exactly when it was
there before and is not the id of a record evicted along the way. -/
theorem admitAll_spec (C : Nat) (h0 : 0 < C) (rs : List NetworkRequest) :
    ∀ (s : RequestsState), s.isPaused = false →
      s.maxRequests = C → s.requests.length ≤ C → rs ≠ [] →
      ((admitAll s rs).requests =
        (s.requests ++ rs).drop ((s.requests ++ rs).length - C)) ∧
      (∀ id : String,
        (id ∈ (admitAll s rs).favorites ↔ id ∈ s.favorites ∧
          id ∉ ((s.requests ++ rs).take ((s.requests ++ rs).length - C)).map (·.id)) ∧
        (id ∈ (admitAll s rs).selected ↔ id ∈ s.selected ∧
          id ∉ ((s.requests ++ rs).take ((s.requests ++ rs).length - C)).map (·.id))) := by
  induction rs with
  | nil => intro s _ _ _ hne; exact absurd rfl hne
  | cons r rs' ih =>
    intro s hp hC hinv _
    have hreq := addRequest_requests s r hp (by rw [hC]; exact h0)
    have hside := addRequest_sideTables s r hp
    rw [hC] at hreq
    rcases eq_or_ne rs' [] with hnil | hne'
    · subst hnil
      exact ⟨hreq, fun id => by
        have := hside id
        rw [hC] at this
        exact this⟩
    · have hstep := ih (addRequest s r)
        (by rw [addRequest_isPaused]; exact hp)
        (by rw [addRequest_maxRequests]; exact hC)
        (by
          have := addRequest_requests_length_le s r
            (by rw [hC]; exact h0) (by rw [hC]; exact hinv)
          rw [hC] at this
          exact this)
        hne'
      have hadm : admitAll s (r :: rs') = admitAll (addRequest s r) rs' := rfl
      rcases hstep with ⟨hreq', hside'⟩
      rw [hadm]
      have hx : s.requests ++ r :: rs' = (s.requests ++ [r]) ++ rs' := by
        simp
      constructor
      · rw [hreq', hreq, hx]
        exact drop_sub_append (s.requests ++ [r]) rs' C
      · intro id
        have hdecomp := take_sub_append (s.requests ++ [r]) rs' C
        rcases hside' id with ⟨hf', hs'⟩
        rcases hside id with ⟨hf, hs⟩
        rw [hC] at hf hs
        rw [hreq] at hf' hs'
        constructor
        · rw [hf', hf, hx, hdecomp]
          simp only [List.map_append, List.mem_append]
          tauto
        · rw [hs', hs, hx, hdecomp]
          simp only [List.map_append, List.mem_append]
          tauto

theorem mem_of_mem_getFilteredRequests {s : RequestsState} {r : NetworkRequest}
    (h : r ∈ getFilteredRequests s) : r ∈ s.requests := by
  unfold getFilteredRequests at h
  split at h
  · exact h
  · exact List.mem_of_mem_filter h

/-- C1: for every sequence of admissions on an un-paused store with capacity `C`,
once more than `C` records have been admitted the store holds exactly the most
recent `C` admitted records in arrival order, and no evicted record's id remains
in the favorites set or the selected set. -/
theorem claim_admit_fifo_eviction (s : RequestsState) (C : Nat) (rs : List NetworkRequest)
    (hp : s.isPaused = false) (hC : s.maxRequests = C) (h0 : 0 < C)
    (hinv : s.requests.length ≤ C) (hlen : C < rs.length) :
    (admitAll s rs).requests = rs.drop (rs.length - C) ∧
    ∀ r ∈ (s.requests ++ rs).take ((s.requests ++ rs).length - C),
      r.id ∉ (admitAll s rs).favorites ∧ r.id ∉ (admitAll s rs).selected := by
  have hne : rs ≠ [] := by
    intro h; subst h; simp at hlen
  obtain ⟨hreq, hside⟩ := admitAll_spec C h0 rs s hp hC hinv hne
  constructor
  · rw [hreq]
    have h4 : ((s.requests ++ rs).drop s.requests.length).drop (rs.length - C) =
        (s.requests ++ rs).drop ((s.requests ++ rs).length - C) := by
      rw [List.drop_drop]
      congr 1
      simp; omega
    rw [← h4, List.drop_left]
  · intro r hr
    have hmem : r.id ∈ ((s.requests ++ rs).take ((s.requests ++ rs).length - C)).map
        (·.id) := List.mem_map_of_mem _ hr
    constructor
    · intro hidin
      exact ((hside r.id).1.mp hidin).2 hmem
    · intro hidin
      exact ((hside r.id).2.mp hidin).2 hmem

/-- Concrete store used to instantiate the FIFO theorem: capacity 1, one stored
record whose id is favorited and selected. -/
def fifoWitnessState : RequestsState :=
  { requests := [mkReq "a"]
    favorites := {"a"}
    selected := {"a"}
    isPaused := false
    maxRequests := 1
    searchQuery := "" }

/-- Witness for C1 at a concrete input: admitting two more records on a
capacity-1 store keeps only the last one and purges the evicted ids. -/
theorem claim_admit_fifo_eviction_witness :
    fifoWitnessState.isPaused = false ∧ fifoWitnessState.maxRequests = 1 ∧
    0 < 1 ∧ fifoWitnessState.requests.length ≤ 1 ∧
    1 < [mkReq "b", mkReq "c"].length ∧
    ((admitAll fifoWitnessState [mkReq "b", mkReq "c"]).requests =
        [mkReq "b", mkReq "c"].drop ([mkReq "b", mkReq "c"].length - 1) ∧
      ∀ r ∈ (fifoWitnessState.requests ++ [mkReq "b", mkReq "c"]).take
          ((fifoWitnessState.requests ++ [mkReq "b", mkReq "c"]).length - 1),
        r.id ∉ (admitAll fifoWitnessState [mkReq "b", mkReq "c"]).favorites ∧
        r.id ∉ (admitAll fifoWitnessState [mkReq "b", mkReq "c"]).selected) :=
  ⟨rfl, rfl, Nat.one_pos, by decide, by decide,
    claim_admit_fifo_eviction fifoWitnessState 1 [mkReq "b", mkReq "c"]
      rfl rfl Nat.one_pos (by decide) (by decide)⟩

/-! ## C5: the toggle operations and the side-table invariant -/

/-- The spec's side-table invariant: favorites and selection hold only ids of
records currently present in the sequence. -/
def SideTablesValid (s : RequestsState) : Prop :=
  (∀ id ∈ s.favorites, ∃ r ∈ s.requests, r.id = id) ∧
  (∀ id ∈ s.selected, ∃ r ∈ s.requests, r.id = id)

/-- Counterexample to C5 as stated: on the empty store, toggling an id that
names no stored record is not a no-op — the id is inserted into the favorites
set (resp. the selected set), so the toggles are unconditional flips and the
subset invariant is not preserved. -/
theorem claim_toggle_noop_counterexample :
    (∀ r ∈ initialRequestsState.requests, r.id ≠ "x") ∧
    toggleFavorite initialRequestsState "x" ≠ initialRequestsState ∧
    toggleSelected initialRequestsState "x" ≠ initialRequestsState ∧
    ¬ SideTablesValid (toggleFavorite initialRequestsState "x") := by
  refine ⟨by simp [initialRequestsState], by decide, by decide, ?_⟩
  intro hvalid
  rcases hvalid.1 "x" (by decide) with ⟨r, hr, -⟩
  simp [toggleFavorite, initialRequestsState] at hr

/-- C5 amended: `toggleFavorite`/`toggleSelected` flip membership of the id
unconditionally, without checking that the id names a stored record; the
side-table invariant is preserved by every store operation provided the toggles
(and `setSelected`) are only applied to ids of records present in the sequence. -/
theorem store_ops_preserve_valid_sideTables (s : RequestsState) (h : SideTablesValid s) :
    (∀ r, SideTablesValid (addRequest s r)) ∧
    (∀ id, SideTablesValid (removeRequest s id)) ∧
    SideTablesValid (clearRequests s) ∧
    (∀ n, SideTablesValid (setMaxRequests s n)) ∧
    SideTablesValid (selectAll s) ∧
    SideTablesValid (deselectAll s) ∧
    SideTablesValid (clearFavorites s) ∧
    (∀ p, SideTablesValid (setPaused s p)) ∧
    (∀ ids, (∀ i ∈ ids, ∃ r ∈ s.requests, r.id = i) →
      SideTablesValid (setSelected s ids)) ∧
    (∀ id, (∃ r ∈ s.requests, r.id = id) →
      SideTablesValid (toggleFavorite s id) ∧ SideTablesValid (toggleSelected s id)) ∧
    (∀ id, (id ∈ (toggleFavorite s id).favorites ↔ id ∉ s.favorites) ∧
      (id ∈ (toggleSelected s id).selected ↔ id ∉ s.selected)) := by
  obtain ⟨hfav, hsel⟩ := h
  refine ⟨?_, ?_, ?_, ?_, ?_, ?_, ?_, ?_, ?_, ?_, ?_⟩
  · intro r
    unfold addRequest
    split
    · exact ⟨hfav, hsel⟩
    · by_cases hgt : (s.requests ++ [r]).length > s.maxRequests
      · rw [if_pos hgt]
        have key : ∀ (t : Finset String), (∀ id ∈ t, ∃ r0 ∈ s.requests, r0.id = id) →
            ∀ id ∈ t.filter (fun id =>
              id ∉ ((s.requests ++ [r]).take
                ((s.requests ++ [r]).length - s.maxRequests)).map (·.id)),
              ∃ r0 ∈ jsSliceNeg s.maxRequests (s.requests ++ [r]), r0.id = id := by
          intro t ht id hid
          rw [Finset.mem_filter] at hid
          rcases ht id hid.1 with ⟨r0, hr0, hr0id⟩
          rcases mem_take_or_jsSliceNeg (C := s.maxRequests)
              (List.mem_append_left [r] hr0) with hin | hin
          · exact absurd (hr0id ▸ List.mem_map_of_mem _ hin) hid.2
          · exact ⟨r0, hin, hr0id⟩
        exact ⟨key s.favorites hfav, key s.selected hsel⟩
      · rw [if_neg hgt]
        refine ⟨fun id hid => ?_, fun id hid => ?_⟩
        · rcases hfav id hid with ⟨r0, hr0, hr0id⟩
          exact ⟨r0, List.mem_append_left [r] hr0, hr0id⟩
        · rcases hsel id hid with ⟨r0, hr0, hr0id⟩
          exact ⟨r0, List.mem_append_left [r] hr0, hr0id⟩
  · intro id
    refine ⟨fun i hi => ?_, fun i hi => ?_⟩
    · simp only [removeRequest, Finset.mem_erase] at hi ⊢
      rcases hfav i hi.2 with ⟨r0, hr0, hr0id⟩
      exact ⟨r0, List.mem_filter_of_mem hr0 (by simp [hr0id, hi.1]), hr0id⟩
    · simp only [removeRequest, Finset.mem_erase] at hi ⊢
      rcases hsel i hi.2 with ⟨r0, hr0, hr0id⟩
      exact ⟨r0, List.mem_filter_of_mem hr0 (by simp [hr0id, hi.1]), hr0id⟩
  · exact ⟨by simp [clearRequests], by simp [clearRequests]⟩
  · intro n
    unfold setMaxRequests
    split
    · have key : ∀ (t : Finset String), (∀ id ∈ t, ∃ r0 ∈ s.requests, r0.id = id) →
          ∀ id ∈ t.filter (fun id =>
            id ∉ (s.requests.take (s.requests.length - n)).map (·.id)),
            ∃ r0 ∈ jsSliceNeg n s.requests, r0.id = id := by
        intro t ht id hid
        rw [Finset.mem_filter] at hid
        rcases ht id hid.1 with ⟨r0, hr0, hr0id⟩
        rcases mem_take_or_jsSliceNeg (C := n) hr0 with hin | hin
        · exact absurd (hr0id ▸ List.mem_map_of_mem _ hin) hid.2
        · exact ⟨r0, hin, hr0id⟩
      exact ⟨key s.favorites hfav, key s.selected hsel⟩
    · exact ⟨hfav, hsel⟩
  · refine ⟨hfav, fun id hid => ?_⟩
    simp only [selectAll, List.mem_toFinset, List.mem_map] at hid
    rcases hid with ⟨r0, hr0, hr0id⟩
    exact ⟨r0, mem_of_mem_getFilteredRequests hr0, hr0id⟩
  · exact ⟨hfav, by simp [deselectAll]⟩
  · exact ⟨by simp [clearFavorites], hsel⟩
  · intro p
    exact ⟨hfav, hsel⟩
  · intro ids hids
    refine ⟨hfav, fun i hi => ?_⟩
    rw [setSelected] at hi
    exact hids i (by simpa using hi)
  · intro id hid
    constructor
    · refine ⟨fun i hi => ?_, hsel⟩
      unfold toggleFavorite at hi
      dsimp only at hi
      by_cases hm : id ∈ s.favorites
      · rw [if_pos hm] at hi
        exact hfav i (Finset.mem_of_mem_erase hi)
      · rw [if_neg hm] at hi
        rcases Finset.mem_insert.mp hi with hEq | hIn
        · exact hEq ▸ hid
        · exact hfav i hIn
    · refine ⟨hfav, fun i hi => ?_⟩
      unfold toggleSelected at hi
      dsimp only at hi
      by_cases hm : id ∈ s.selected
      · rw [if_pos hm] at hi
        exact hsel i (Finset.mem_of_mem_erase hi)
      · rw [if_neg hm] at hi
        rcases Finset.mem_insert.mp hi with hEq | hIn
        · exact hEq ▸ hid
        · exact hsel i hIn
  · intro id
    constructor
    · unfold toggleFavorite
      dsimp only
      by_cases hm : id ∈ s.favorites
      · rw [if_pos hm]
        simp [hm]
      · rw [if_neg hm]
        simp [hm]
    · unfold toggleSelected
      dsimp only
      by_cases hm : id ∈ s.selected
      · rw [if_pos hm]
        simp [hm]
      · rw [if_neg hm]
        simp [hm]

/-- Witness for the amended C5 at a concrete valid store. -/
theorem store_ops_preserve_valid_sideTables_witness :
    SideTablesValid fifoWitnessState ∧
    ((∀ r, SideTablesValid (addRequest fifoWitnessState r)) ∧
    (∀ id, SideTablesValid (removeRequest fifoWitnessState id)) ∧
    SideTablesValid (clearRequests fifoWitnessState) ∧
    (∀ n, SideTablesValid (setMaxRequests fifoWitnessState n)) ∧
    SideTablesValid (selectAll fifoWitnessState) ∧
    SideTablesValid (deselectAll fifoWitnessState) ∧
    SideTablesValid (clearFavorites fifoWitnessState) ∧
    (∀ p, SideTablesValid (setPaused fifoWitnessState p)) ∧
    (∀ ids, (∀ i ∈ ids, ∃ r ∈ fifoWitnessState.requests, r.id = i) →
      SideTablesValid (setSelected fifoWitnessState ids)) ∧
    (∀ id, (∃ r ∈ fifoWitnessState.requests, r.id = id) →
      SideTablesValid (toggleFavorite fifoWitnessState id) ∧
        SideTablesValid (toggleSelected fifoWitnessState id)) ∧
    (∀ id, (id ∈ (toggleFavorite fifoWitnessState id).favorites ↔
        id ∉ fifoWitnessState.favorites) ∧
      (id ∈ (toggleSelected fifoWitnessState id).selected ↔
        id ∉ fifoWitnessState.selected))) :=
  ⟨⟨by decide, by decide⟩, store_ops_preserve_valid_sideTables fifoWitnessState ⟨by decide, by decide⟩⟩

/-! ## Redaction engine (`src/lib/sanitizer/index.ts`) -/

/-- One redaction directive (interface `SanitizationRule`). -/
structure SanitizationRule where
  id : String
  name : String
  pattern : String
  replacement : String
  enabled : Bool
  isDefault : Bool
deriving DecidableEq

/-- The two operations the sanitizer uses on one compiled regex. -/
structure RegexFns where
  test : String → Bool
  replace : String → String → String

/-- Abstract model of the JS regex facility: `compile pattern` models
`new RegExp(pattern, "gi")`, returning the compiled regex's `test` operation and
its global case-insensitive `replace` operation (taking the replacement text and
the subject), or `none` when the constructor throws on an invalid pattern.  Full
JS regex semantics are out of scope; `literalEngine` below instantiates the
engine faithfully for metacharacter-free patterns. -/
structure RegexEngine where
  compile : String → Option RegexFns

/-- The body of `sanitizeValue`'s loop: apply one rule, skipping it when its
pattern fails to compile (the `try`/`catch` of the source). -/
def sanitizeStep (E : RegexEngine) (sanitized : String) (rule : SanitizationRule) : String :=
  match E.compile rule.pattern with
  | some fns => fns.replace rule.replacement sanitized
  | none => sanitized

/-- `sanitizeValue` from the source: return falsy (empty) input unchanged,
otherwise fold the enabled rules, in list order, over the accumulating text. -/
def sanitizeValue (E : RegexEngine) (value : String)
    (rules : List SanitizationRule) : String :=
  if value = "" then value
  else (rules.filter (·.enabled)).foldl (sanitizeStep E) value

/-- Result shape of `previewSanitization` (interface `SanitizationPreview`). -/
structure SanitizationPreview where
  original : String
  sanitized : String
  matchedRules : List String
  hasChanges : Bool
deriving DecidableEq

/-- `previewSanitization` from the source: walk the enabled rules, recording the
names of rules whose pattern matches the original value and applying each rule to
the accumulating text; rules that fail to compile are skipped. -/
def previewSanitization (E : RegexEngine) (value : String)
    (rules : List SanitizationRule) : SanitizationPreview :=
  let result := (rules.filter (·.enabled)).foldl
    (fun (acc : List String × String) rule =>
      match E.compile rule.pattern with
      | some fns =>
          (if fns.test value then acc.1 ++ [rule.name] else acc.1,
            fns.replace rule.replacement acc.2)
      | none => acc)
    ([], value)
  { original := value
    sanitized := result.2
    matchedRules := result.1
    hasChanges := value != result.2 }

/-! ### A concrete engine for metacharacter-free patterns -/

/-- Case-insensitive character comparison (the `i` flag, on the ASCII inputs we
model). -/
def ciCharEq (a b : Char) : Bool :=
  a.toLower == b.toLower

/-- Case-insensitive test that `p` begins the list `l`. -/
def ciPfx : List Char → List Char → Bool
  | [], _ => true
  | _ :: _, [] => false
  | p :: ps, c :: cs => ciCharEq p c && ciPfx ps cs

/-- Case-insensitive substring test. -/
def ciContainsL (p : List Char) : List Char → Bool
  | [] => ciPfx p []
  | c :: cs => ciPfx p (c :: cs) || ciContainsL p cs

/-- Case-insensitive substring test on `String`s. -/
def ciContains (pat s : String) : Bool :=
  ciContainsL pat.data s.data

/-- Global replacement for an empty pattern: `/(?:)/g` matches the empty string
at every position, so the replacement is inserted before every character and at
the end. -/
def replaceEmptyPat (repl : List Char) : List Char → List Char
  | [] => repl
  | c :: cs => repl ++ c :: replaceEmptyPat repl cs

/-- Global case-insensitive literal replacement for a non-empty pattern: scan
left to right, replacing every non-overlapping match and resuming after it.
The fuel argument only forces structural recursion; one unit is spent per
consumed character, so fuel equal to the subject's length always suffices. -/
def replaceLitFuel (p repl : List Char) : Nat → List Char → List Char
  | _, [] => []
  | 0, l => l
  | fuel + 1, c :: cs =>
      if ciPfx p (c :: cs) then repl ++ replaceLitFuel p repl fuel (cs.drop (p.length - 1))
      else c :: replaceLitFuel p repl fuel cs

/-- JS `s.replace(new RegExp(pat, "gi"), repl)` for a metacharacter-free `pat`
and a `$`-free `repl`. -/
def jsReplaceLiteral (pat repl s : String) : String :=
  if pat.data = [] then ⟨replaceEmptyPat repl.data s.data⟩
  else ⟨replaceLitFuel pat.data repl.data s.data.length s.data⟩

/-- The JS regex facility restricted to patterns that carry no regex
metacharacters and replacements that carry no `$` escapes: every pattern
compiles, `test` is case-insensitive substring search, and `replace` is global
case-insensitive literal replacement. -/
def literalEngine : RegexEngine :=
  { compile := fun pat => some
      { test := fun s => ciContains pat s
        replace := fun repl s => jsReplaceLiteral pat repl s } }

/-! ### C2: the pipeline structure of `sanitizeValue` -/

/-- The redaction pipeline exactly as the claim's words describe it: every
enabled rule runs in list order on the output of the previous rule, a rule whose
pattern fails to compile is skipped while every remaining rule still runs, and
the accumulated result after the last rule is returned (no special case for
empty input). -/
def sanitizeValueSpec (E : RegexEngine) (value : String)
    (rules : List SanitizationRule) : String :=
  rules.foldl (fun sanitized rule =>
    if rule.enabled then sanitizeStep E sanitized rule else sanitized) value

/-- A rule whose (empty, valid) pattern rewrites even the empty string. -/
def emptyPatternRule : SanitizationRule :=
  { id := "r0"
    name := "Empty Pattern"
    pattern := ""
    replacement := "X"
    enabled := true
    isDefault := false }

/-- Counterexample to C2 as stated: on the empty input string `sanitizeValue`
returns early and applies no rule at all, so with an enabled empty-pattern rule
(which compiles and rewrites the empty string to `"X"`) the accumulated result
of running the rules is not returned. -/
theorem claim_sanitize_pipeline_counterexample :
    sanitizeValueSpec literalEngine "" [emptyPatternRule] = "X" ∧
    sanitizeValue literalEngine "" [emptyPatternRule] = "" ∧
    sanitizeValue literalEngine "" [emptyPatternRule] ≠
      sanitizeValueSpec literalEngine "" [emptyPatternRule] := by
  refine ⟨by decide, by decide, by decide⟩

theorem foldl_filter_enabled (E : RegexEngine) :
    ∀ (rules : List SanitizationRule) (acc : String),
      (rules.filter (·.enabled)).foldl (sanitizeStep E) acc =
        rules.foldl (fun sanitized rule =>
          if rule.enabled then sanitizeStep E sanitized rule else sanitized) acc := by
  intro rules
  induction rules with
  | nil => intro acc; rfl
  | cons r rs ih =>
    intro acc
    by_cases hr : r.enabled
    · simp [List.filter_cons, hr, ih]
    · simp [List.filter_cons, hr, ih]

/-- C2 amended: for every non-empty input, `sanitizeValue` applies exactly the
enabled rules in list order, each on the output of the previous one, skipping
rules whose pattern fails to compile while every remaining rule still runs, and
returns the accumulated result; an empty input is returned unchanged without
running any rule. -/
theorem sanitizeValue_runs_enabled_rules (E : RegexEngine) (value : String)
    (rules : List SanitizationRule) :
    sanitizeValue E value rules =
      if value = "" then value else sanitizeValueSpec E value rules := by
  unfold sanitizeValue sanitizeValueSpec
  by_cases hv : value = ""
  · simp [hv]
  · simp only [hv, if_false]
    exact foldl_filter_enabled E rules value

/-! ### C7: idempotence of the redaction pipeline -/

/-- Whether a rule pattern matches some text, under a given engine (an invalid
pattern matches nothing).  Used to state the claim's side condition. -/
def patternMatchesText (E : RegexEngine) (pattern text : String) : Bool :=
  match E.compile pattern with
  | some fns => fns.test text
  | none => false

/-- The collapse rule `aa → a`: its replacement is not matched by its pattern,
yet replacement output can splice with adjacent text into a new match. -/
def collapseRule : SanitizationRule :=
  { id := "r1"
    name := "Collapse"
    pattern := "aa"
    replacement := "a"
    enabled := true
    isDefault := true }

/-- Counterexample to C7 as stated: with the single rule `aa → a` (whose
replacement `"a"` is matched by no rule's pattern) the input `"aaa"` sanitizes
to `"aa"`, which sanitizes again to `"a"` — so `Sanitize` is not idempotent even
though the claim's side condition holds. -/
theorem claim_sanitize_idempotent_counterexample :
    (∀ r ∈ [collapseRule], ∀ r' ∈ [collapseRule],
      patternMatchesText literalEngine r.pattern r'.replacement = false) ∧
    sanitizeValue literalEngine "aaa" [collapseRule] = "aa" ∧
    sanitizeValue literalEngine
        (sanitizeValue literalEngine "aaa" [collapseRule]) [collapseRule] ≠
      sanitizeValue literalEngine "aaa" [collapseRule] := by
  refine ⟨by decide, by decide, by decide⟩

theorem foldl_fixed_point {α β : Type} (f : α → β → α) :
    ∀ (l : List β) (a : α), (∀ b ∈ l, f a b = a) → l.foldl f a = a := by
  intro l
  induction l with
  | nil => intro a _; rfl
  | cons b bs ih =>
    intro a h
    have hb := h b (List.mem_cons_self b bs)
    simp only [List.foldl_cons, hb]
    exact ih a (fun b' hb' => h b' (List.mem_cons_of_mem b hb'))

/-- C7 amended: the pipeline is idempotent whenever its output is a fixed point
of every enabled rule; the claim's original side condition — replacement text
not matched by any rule's pattern — is not sufficient, because a replacement can
splice with adjacent text to form a new match. -/
theorem sanitizeValue_idempotent_of_fixed (E : RegexEngine) (x : String)
    (R : List SanitizationRule)
    (hfix : ∀ r ∈ R.filter (·.enabled),
      sanitizeStep E (sanitizeValue E x R) r = sanitizeValue E x R) :
    sanitizeValue E (sanitizeValue E x R) R = sanitizeValue E x R := by
  by_cases hs : sanitizeValue E x R = ""
  · rw [sanitizeValue, if_pos hs]
  · rw [sanitizeValue, if_neg hs]
    exact foldl_fixed_point (sanitizeStep E) (R.filter (·.enabled)) _ hfix

/-- Witness for the amended C7 at a concrete input: `"b"` is untouched by the
collapse rule, so its sanitization is a fixed point and re-sanitizing it changes
nothing. -/
theorem sanitizeValue_idempotent_of_fixed_witness :
    (∀ r ∈ [collapseRule].filter (·.enabled),
      sanitizeStep literalEngine
        (sanitizeValue literalEngine "b" [collapseRule]) r =
        sanitizeValue literalEngine "b" [collapseRule]) ∧
    sanitizeValue literalEngine
        (sanitizeValue literalEngine "b" [collapseRule]) [collapseRule] =
      sanitizeValue literalEngine "b" [collapseRule] :=
  ⟨by decide, sanitizeValue_idempotent_of_fixed literalEngine "b" [collapseRule] (by decide)⟩

/-! ### C10: `previewSanitization` against `sanitizeValue` -/

theorem preview_foldl_snd (E : RegexEngine) (value : String) :
    ∀ (rules : List SanitizationRule) (names : List String) (acc : String),
      (rules.foldl
        (fun (acc : List String × String) rule =>
          match E.compile rule.pattern with
          | some fns =>
              (if fns.test value then acc.1 ++ [rule.name] else acc.1,
                fns.replace rule.replacement acc.2)
          | none => acc)
        (names, acc)).2 = rules.foldl (sanitizeStep E) acc := by
  intro rules
  induction rules with
  | nil => intro names acc; rfl
  | cons r rs ih =>
    intro names acc
    simp only [List.foldl_cons, sanitizeStep]
    cases hc : E.compile r.pattern with
    | some fns => exact ih _ _
    | none => exact ih _ _

/-- Counterexample to C10 as stated: `previewSanitization` has no early return
for the empty string, so with an enabled empty-pattern rule its `sanitized`
field differs from `sanitizeValue` on the empty input. -/
theorem claim_preview_matches_sanitize_counterexample :
    (previewSanitization literalEngine "" [emptyPatternRule]).sanitized = "X" ∧
    sanitizeValue literalEngine "" [emptyPatternRule] = "" ∧
    (previewSanitization literalEngine "" [emptyPatternRule]).sanitized ≠
      sanitizeValue literalEngine "" [emptyPatternRule] := by
  refine ⟨by decide, by decide, by decide⟩

/-- C10 amended: for every non-empty input, `previewSanitization`'s `sanitized`
field equals `sanitizeValue` on the same input and rules (on the empty input
`sanitizeValue` returns early while the preview still runs the rules), and its
`hasChanges` flag is true exactly when the sanitized output differs from the
original input. -/
theorem previewSanitization_refines_sanitizeValue (E : RegexEngine) (value : String)
    (rules : List SanitizationRule) :
    (value ≠ "" →
      (previewSanitization E value rules).sanitized = sanitizeValue E value rules) ∧
    ((previewSanitization E value rules).hasChanges = true ↔
      (previewSanitization E value rules).sanitized ≠ value) := by
  constructor
  · intro hv
    unfold previewSanitization sanitizeValue
    simp only [hv, if_false]
    exact preview_foldl_snd E value (rules.filter (·.enabled)) [] value
  · unfold previewSanitization
    simp only [bne_iff_ne]
    exact ne_comm

/-- Witness for C10 at a concrete input: previewing the collapse rule on
`"aaa"`. -/
theorem previewSanitization_refines_sanitizeValue_witness :
    ("aaa" : String) ≠ "" ∧
    (previewSanitization literalEngine "aaa" [collapseRule]).sanitized =
      sanitizeValue literalEngine "aaa" [collapseRule] ∧
    ((previewSanitization literalEngine "aaa" [collapseRule]).hasChanges = true ↔
      (previewSanitization literalEngine "aaa" [collapseRule]).sanitized ≠ "aaa") :=
  ⟨by decide,
    (previewSanitization_refines_sanitizeValue literalEngine "aaa" [collapseRule]).1
      (by decide),
    (previewSanitization_refines_sanitizeValue literalEngine "aaa" [collapseRule]).2⟩

/-! ## Request classifier (`src/lib/utils/graphql.ts`) -/

/-- The shape of a parsed JSON document, with exactly the structure the
classifier inspects. -/
inductive JsonValue where
  | str (s : String)
  | num (n : Int)
  | bool (b : Bool)
  | null
  | arr (elements : List JsonValue)
  | obj (fields : List (String × JsonValue))

/-- JS `parsed && typeof parsed === "object"`: arrays and objects pass, `null`
is falsy, and primitives fail the `typeof` test. -/
def isTruthyObject : JsonValue → Bool
  | .obj _ => true
  | .arr _ => true
  | _ => false

/-- JS property access `parsed[key]` on a parsed JSON document: on an object the
last binding of the key wins (as in `JSON.parse`); anything else yields
`undefined`. -/
def getField : JsonValue → String → Option JsonValue
  | .obj fields, key => (fields.reverse.find? (fun kv => kv.1 = key)).map (·.2)
  | _, _ => none

/-- The classifier's content-type inspection: the first header whose lowercased
name is `content-type`, tested for containing `application/json` (an absent
header is falsy). -/
def jsonContentType (request : NetworkRequest) : Bool :=
  match (request.requestHeaders.find? (fun kv => jsToLower kv.1 == "content-type")).map
      (·.2) with
  | some ct => containsStr "application/json" ct
  | none => false

/-- The classifier's body inspection: a truthy non-empty body with a JSON
content type that parses to a truthy object whose `query` property is a string
(`hasQuery`), optionally with the query starting with `mutation`
(`hasMutation`, which implies `hasQuery`). -/
def graphqlBodyCheck (parse : String → Option JsonValue)
    (request : NetworkRequest) : Bool :=
  match request.requestBody with
  | some body =>
      if body != "" && jsonContentType request then
        match parse body with
        | some parsed =>
            if isTruthyObject parsed then
              let hasQuery :=
                match getField parsed "query" with
                | some (.str _) => true
                | _ => false
              let hasMutation :=
                match getField parsed "query" with
                | some (.str q) => q.trim.startsWith "mutation"
                | _ => false
              hasQuery || hasMutation
            else false
        | none => false
      else false
  | none => false

/-- `isGraphQLRequest` from the source.  `parse` models `safeJsonParse`
(`JSON.parse` returning `null` on failure); it is passed as a parameter because
JSON text parsing is out of scope, and both the code and the claim inspect its
result identically. -/
def isGraphQLRequest (parse : String → Option JsonValue)
    (request : NetworkRequest) : Bool :=
  if graphqlBodyCheck parse request then true
  else if containsStr "/graphql" (jsToLower request.url) &&
      request.method == "POST" && jsonContentType request then true
  else false

/-- A GET request to a `/graphql` URL with no headers and no body. -/
def graphqlUrlOnlyReq : NetworkRequest :=
  { mkReq "g" with url := "https://x/graphql", method := "GET" }

/-- Counterexample to C3 as stated: this request's URL contains `/graphql`, yet
the classifier returns `false` — a `/graphql` URL alone is not sufficient; the
code additionally requires a JSON content type together with either a POST
method or a JSON body carrying a string `query` field. -/
theorem claim_graphql_url_counterexample :
    containsStr "/graphql" (jsToLower graphqlUrlOnlyReq.url) = true ∧
    isGraphQLRequest (fun _ => none) graphqlUrlOnlyReq = false :=
  ⟨by decide, by decide⟩

theorem graphqlBodyCheck_iff (parse : String → Option JsonValue)
    (request : NetworkRequest) :
    graphqlBodyCheck parse request = true ↔
      ∃ body parsed, request.requestBody = some body ∧ body ≠ "" ∧
        jsonContentType request = true ∧ parse body = some parsed ∧
        isTruthyObject parsed = true ∧
        ∃ q, getField parsed "query" = some (.str q) := by
  unfold graphqlBodyCheck
  cases hb : request.requestBody with
  | none => simp
  | some body =>
    simp only [Option.some.injEq]
    by_cases hcond : (body != "" && jsonContentType request) = true
    · rw [if_pos hcond]
      rw [Bool.and_eq_true, bne_iff_ne] at hcond
      cases hp : parse body with
      | none =>
        simp only [Bool.false_eq_true, false_iff]
        rintro ⟨b, parsed, rfl, -, -, hp', -⟩
        rw [hp] at hp'
        exact Option.noConfusion hp'
      | some parsed =>
        dsimp only
        by_cases ht : isTruthyObject parsed = true
        · rw [if_pos ht]
          constructor
          · intro hq
            rw [Bool.or_eq_true] at hq
            have hq' : ∃ q, getField parsed "query" = some (.str q) := by
              rcases hq with hq | hq
              · revert hq
                cases hgf : getField parsed "query" with
                | none => intro hq; exact absurd hq (by simp)
                | some v =>
                  cases v with
                  | str s => intro _; exact ⟨s, rfl⟩
                  | num n => intro hq; exact absurd hq (by simp)
                  | bool b => intro hq; exact absurd hq (by simp)
                  | null => intro hq; exact absurd hq (by simp)
                  | arr es => intro hq; exact absurd hq (by simp)
                  | obj fs => intro hq; exact absurd hq (by simp)
              · revert hq
                cases hgf : getField parsed "query" with
                | none => intro hq; exact absurd hq (by simp)
                | some v =>
                  cases v with
                  | str s => intro _; exact ⟨s, rfl⟩
                  | num n => intro hq; exact absurd hq (by simp)
                  | bool b => intro hq; exact absurd hq (by simp)
                  | null => intro hq; exact absurd hq (by simp)
                  | arr es => intro hq; exact absurd hq (by simp)
                  | obj fs => intro hq; exact absurd hq (by simp)
            exact ⟨body, parsed, rfl, hcond.1, hcond.2, hp, ht, hq'⟩
          · rintro ⟨b, parsed', rfl, -, -, hp', -, q, hq⟩
            rw [hp] at hp'
            cases hp'
            rw [hq]
            simp
        · rw [if_neg ht]
          simp only [Bool.false_eq_true, false_iff]
          rintro ⟨b, parsed', rfl, -, -, hp', ht', -⟩
          rw [hp] at hp'
          cases hp'
          exact ht ht'
    · rw [if_neg hcond]
      simp only [Bool.and_eq_true, bne_iff_ne] at hcond
      simp only [Bool.false_eq_true, false_iff]
      rintro ⟨b, parsed', rfl, hne, hjson, -⟩
      exact hcond ⟨hne, hjson⟩

/-- C3 amended: the GraphQL flag is true iff either (a) the request has a
non-empty body, a content type containing `application/json`, and the body
parses to a truthy JSON object whose `query` property is a string, or (b) the
lowercased URL contains `/graphql`, the method is exactly `"POST"`, and the
content type contains `application/json`.  A `/graphql` URL alone is not
sufficient, and a JSON body with a `query` field does not count without the
JSON content type. -/
theorem isGraphQLRequest_iff (parse : String → Option JsonValue)
    (request : NetworkRequest) :
    isGraphQLRequest parse request = true ↔
      ((∃ body parsed, request.requestBody = some body ∧ body ≠ "" ∧
          jsonContentType request = true ∧ parse body = some parsed ∧
          isTruthyObject parsed = true ∧
          ∃ q, getField parsed "query" = some (.str q)) ∨
        (containsStr "/graphql" (jsToLower request.url) = true ∧
          request.method = "POST" ∧ jsonContentType request = true)) := by
  unfold isGraphQLRequest
  by_cases hb : graphqlBodyCheck parse request = true
  · rw [if_pos hb]
    simp only [true_iff]
    exact Or.inl ((graphqlBodyCheck_iff parse request).mp hb)
  · rw [if_neg hb]
    by_cases hc : (containsStr "/graphql" (jsToLower request.url) &&
        request.method == "POST" && jsonContentType request) = true
    · rw [if_pos hc]
      simp only [Bool.and_eq_true, beq_iff_eq] at hc
      simp only [true_iff]
      exact Or.inr ⟨hc.1.1, hc.1.2, hc.2⟩
    · rw [if_neg hc]
      simp only [Bool.false_eq_true, false_iff]
      rintro (hbody | hurl)
      · exact hb ((graphqlBodyCheck_iff parse request).mpr hbody)
      · exact hc (by
          simp only [Bool.and_eq_true, beq_iff_eq]
          exact ⟨⟨hurl.1, hurl.2.1⟩, hurl.2.2⟩)

/-- Witness for the amended C3: a POST to a `/graphql` URL with a JSON content
type and no body is classified GraphQL through the URL branch of the iff. -/
theorem isGraphQLRequest_iff_witness :
    isGraphQLRequest (fun _ => none)
      { mkReq "g2" with
          url := "https://x/graphql"
          method := "POST"
          requestHeaders := [("Content-Type", "application/json")] } = true :=
  (isGraphQLRequest_iff (fun _ => none) _).mpr (Or.inr ⟨by decide, rfl, by decide⟩)

/-! ## Body loader (`src/lib/network/parser.ts`) -/

/-- Maximum body size to store in memory (500 KiB); larger bodies are
lazy-loaded. -/
def MAX_BODY_SIZE : Int := 500 * 1024

/-- The three body-related fields `parseHarEntry` computes. -/
structure BodyLoadOutcome where
  responseBody : Option String
  hasFullResponseBody : Bool
  hasBodyLoader : Bool
deriving DecidableEq

/-- The response-body logic of `parseHarEntry`, with the declared body size
(`entry.response.content.size || 0`) and the outcome of the asynchronous
`getContent` fetch supplied as inputs: `contentResult` is `some text` when the
callback delivers content (after the `content || ""` normalization) and `none`
when it fails (`content === undefined`, rejecting the promise, caught by the
surrounding `try`). -/
def parseHarEntryBody (responseBodySize : Int)
    (contentResult : Option String) : BodyLoadOutcome :=
  if responseBodySize ≤ MAX_BODY_SIZE then
    match contentResult with
    | some text =>
        { responseBody := some text, hasFullResponseBody := true, hasBodyLoader := false }
    | none =>
        { responseBody := none, hasFullResponseBody := false, hasBodyLoader := false }
  else
    { responseBody := none, hasFullResponseBody := false, hasBodyLoader := true }

/-- Counterexample to C6 as stated: at a declared size of exactly `500 * 1024`
bytes the body is still fetched and attached inline with
`hasFullResponseBody = true` and no deferred handle — the code's comparison is
`size <= MAX_BODY_SIZE`, so the deferred path is taken only strictly above the
threshold, not at it. -/
theorem claim_body_threshold_counterexample :
    (parseHarEntryBody (500 * 1024) (some "x")).hasFullResponseBody = true ∧
    (parseHarEntryBody (500 * 1024) (some "x")).responseBody = some "x" ∧
    (parseHarEntryBody (500 * 1024) (some "x")).hasBodyLoader = false :=
  ⟨by decide, by decide, by decide⟩

/-- C6 amended: the body is fetched and attached inline exactly when the
declared size is at most 500 KiB (the threshold itself included); strictly above
it the body is left unattached with a deferred-load handle; and a failed inline
fetch yields an absent body with `hasFullResponseBody = false` rather than an
error. -/
theorem parseHarEntryBody_threshold (size : Int) (content : Option String) :
    (size ≤ 500 * 1024 →
      parseHarEntryBody size content =
        { responseBody := content
          hasFullResponseBody := content.isSome
          hasBodyLoader := false }) ∧
    (500 * 1024 < size →
      parseHarEntryBody size content =
        { responseBody := none
          hasFullResponseBody := false
          hasBodyLoader := true }) := by
  constructor
  · intro hle
    unfold parseHarEntryBody MAX_BODY_SIZE
    rw [if_pos hle]
    cases content <;> rfl
  · intro hgt
    unfold parseHarEntryBody MAX_BODY_SIZE
    rw [if_neg (by omega)]

/-- Witness for the amended C6 at concrete sizes on both sides of the
threshold. -/
theorem parseHarEntryBody_threshold_witness :
    ((0 : Int) ≤ 500 * 1024 ∧
      parseHarEntryBody 0 (some "x") =
        { responseBody := some "x"
          hasFullResponseBody := true
          hasBodyLoader := false }) ∧
    ((500 * 1024 : Int) < 500 * 1024 + 1 ∧
      parseHarEntryBody (500 * 1024 + 1) (some "x") =
        { responseBody := none
          hasFullResponseBody := false
          hasBodyLoader := true }) :=
  ⟨⟨by decide, (parseHarEntryBody_threshold 0 (some "x")).1 (by decide)⟩,
    ⟨by decide, (parseHarEntryBody_threshold (500 * 1024 + 1) (some "x")).2 (by decide)⟩⟩

/-! ## Replay executor (`src/lib/network/replay.ts`) -/

/-- Headers that should not be set manually (browser-controlled),
`FORBIDDEN_HEADERS` from the source. -/
def FORBIDDEN_HEADERS : List String :=
  ["accept-charset", "accept-encoding", "access-control-request-headers",
    "access-control-request-method", "connection", "content-length", "cookie",
    "cookie2", "date", "dnt", "expect", "host", "keep-alive", "origin",
    "referer", "te", "trailer", "transfer-encoding", "upgrade", "via"]

/-- `filterHeaders` from the source: drop every header whose lowercased name is
in the forbidden set or starts with `sec-`; keep the rest unchanged. -/
def filterHeaders (headers : List (String × String)) : List (String × String) :=
  headers.filter (fun kv =>
    !(FORBIDDEN_HEADERS.contains (jsToLower kv.1)) &&
      !(startsWithStr (jsToLower kv.1) "sec-"))

/-- The editable request description (interface `ReplayOptions`). -/
structure ReplayOptions where
  method : String
  url : String
  headers : List (String × String)
  body : Option String
deriving DecidableEq

/-- The pure part of the outbound `fetch` call (`RequestInit`): method, filtered
headers, and a body only for body-carrying methods. -/
structure FetchInit where
  method : String
  headers : List (String × String)
  body : Option String
deriving DecidableEq

/-- The `fetchOptions` object `replayRequest` builds for the outbound call, its
pure data: `redirect`/`credentials` settings, the network transport itself, and
URL validation (which precedes this construction and aborts on an invalid URL)
are out of scope. -/
def buildFetchOptions (options : ReplayOptions) : FetchInit :=
  { method := options.method
    headers := filterHeaders options.headers
    body :=
      if ["POST", "PUT", "PATCH"].contains (jsToUpper options.method) then options.body
      else none }

/-- A header name the replay executor strips, compared on the lowercased name. -/
def forbiddenHeaderName (name : String) : Bool :=
  FORBIDDEN_HEADERS.contains (jsToLower name) || startsWithStr (jsToLower name) "sec-"

/-- C8: for every replay spec the outbound call's headers are exactly the
supplied headers with every forbidden transport-controlled name (including
`Cookie`, `Host`, `Content-Length`, and any `sec-`-prefixed name, all compared
case-insensitively) removed and all other headers preserved unchanged, and the
supplied body is included exactly when the method is POST, PUT, or PATCH up to
case. -/
theorem claim_replay_fetch_options (options : ReplayOptions) :
    (buildFetchOptions options).headers =
      options.headers.filter (fun kv => !forbiddenHeaderName kv.1) ∧
    (∀ kv ∈ options.headers,
      (kv ∈ (buildFetchOptions options).headers ↔ forbiddenHeaderName kv.1 = false)) ∧
    forbiddenHeaderName "Cookie" = true ∧
    forbiddenHeaderName "Host" = true ∧
    forbiddenHeaderName "Content-Length" = true ∧
    (∀ name : String, startsWithStr (jsToLower name) "sec-" = true →
      forbiddenHeaderName name = true) ∧
    ((buildFetchOptions options).body =
      if ["POST", "PUT", "PATCH"].contains (jsToUpper options.method) then options.body
      else none) := by
  have hfilters : (buildFetchOptions options).headers =
      options.headers.filter (fun kv => !forbiddenHeaderName kv.1) := by
    show filterHeaders options.headers = _
    unfold filterHeaders forbiddenHeaderName
    apply List.filter_congr
    intro kv _
    rw [Bool.not_or]
  refine ⟨hfilters, ?_, by decide, by decide, by decide, ?_, rfl⟩
  · intro kv hkv
    rw [hfilters, List.mem_filter]
    constructor
    · rintro ⟨-, h⟩
      simpa using h
    · intro h
      exact ⟨hkv, by simp [h]⟩
  · intro name h
    unfold forbiddenHeaderName
    rw [h, Bool.or_true]

/-- The spec's replay example: a POST whose `Cookie` header must be stripped
while `X-Test` survives. -/
def replayExampleOptions : ReplayOptions :=
  { method := "POST"
    url := "https://api.example.com/login"
    headers := [("Cookie", "x=1"), ("X-Test", "a")]
    body := some "a=1" }

/-- Witness for C8 on the spec's example: the outbound call drops `Cookie`,
keeps `X-Test: a`, and carries the body. -/
theorem claim_replay_fetch_options_witness :
    (("Cookie", "x=1") ∈ replayExampleOptions.headers ∧
      (("Cookie", "x=1") ∈ (buildFetchOptions replayExampleOptions).headers ↔
        forbiddenHeaderName "Cookie" = false)) ∧
    (("X-Test", "a") ∈ replayExampleOptions.headers ∧
      (("X-Test", "a") ∈ (buildFetchOptions replayExampleOptions).headers ↔
        forbiddenHeaderName "X-Test" = false)) ∧
    (startsWithStr (jsToLower "Sec-Fetch-Mode") "sec-" = true ∧
      forbiddenHeaderName "Sec-Fetch-Mode" = true) :=
  ⟨⟨by decide, (claim_replay_fetch_options replayExampleOptions).2.1 _ (by decide)⟩,
    ⟨by decide, (claim_replay_fetch_options replayExampleOptions).2.1 _ (by decide)⟩,
    ⟨by decide, (claim_replay_fetch_options replayExampleOptions).2.2.2.2.2.1
      "Sec-Fetch-Mode" (by decide)⟩⟩

/-! ## Context builder (`src/lib/llm/context.ts`)

Document text is modelled as `List Char` (JS strings over the ASCII inputs we
exercise); `str` converts a Lean string literal.  JS numbers appearing here
(durations, sizes) are integer-valued in every claim, so they are modelled as
`Nat`, with `toFixed` realized by exact rational rounding (round half away from
zero, as `toFixed` does on non-negative values). -/

/-- Character-list view of a string literal. -/
def str (s : String) : List Char :=
  s.data

/-- JS `Array.prototype.join(sep)`. -/
def joinSep (sep : List Char) : List (List Char) → List Char
  | [] => []
  | [x] => x
  | x :: y :: rest => x ++ sep ++ joinSep sep (y :: rest)

/-- Decimal digits of a natural number. -/
def natToChars (n : Nat) : List Char :=
  (Nat.repr n).data

/-- `(num / den).toFixed(1)` computed exactly: one decimal digit, rounding half
away from zero. -/
def toFixed1 (num den : Nat) : List Char :=
  let n := (num * 10 * 2 + den) / (2 * den)
  natToChars (n / 10) ++ str "." ++ natToChars (n % 10)

/-- The unit picked by `formatBytes` (`units[i]`, where an out-of-range index
renders as `undefined` in the template literal). -/
def bytesUnit : Nat → List Char
  | 0 => str "B"
  | 1 => str "KB"
  | 2 => str "MB"
  | 3 => str "GB"
  | _ => str "undefined"

/-- `formatBytes` from `src/lib/utils/format.ts`, on natural byte counts:
`Math.floor(Math.log bytes / Math.log 1024)` is `Nat.log 1024 bytes`. -/
def formatBytes (bytes : Nat) : List Char :=
  if bytes = 0 then str "0 B"
  else
    let i := Nat.log 1024 bytes
    if i = 0 then natToChars bytes ++ str " B"
    else toFixed1 bytes (1024 ^ i) ++ str " " ++ bytesUnit i

/-- `formatDuration` from `src/lib/utils/format.ts`, on natural millisecond
counts (`Math.round` is the identity there, and `toFixed(0)` rounds half away
from zero). -/
def formatDuration (ms : Nat) : List Char :=
  if ms < 1000 then natToChars ms ++ str "ms"
  else if ms < 60000 then toFixed1 ms 1000 ++ str "s"
  else natToChars (ms / 60000) ++ str "m " ++
    natToChars ((ms % 60000 + 500) / 1000) ++ str "s"

/-- A sanitized record as the context builder consumes it (interface
`SanitizedRequest` of `src/lib/sanitizer/index.ts`, text fields as char
lists). -/
structure CtxRequest where
  id : List Char
  timestamp : Int
  method : List Char
  url : List Char
  status : Nat
  statusText : List Char
  duration : Nat
  requestHeaders : List (List Char × List Char)
  requestBody : Option (List Char)
  requestBodySize : Nat
  responseHeaders : List (List Char × List Char)
  responseBody : Option (List Char)
  responseBodySize : Nat
  responseMimeType : List Char
  isGraphQL : Bool
  isWebSocket : Bool

/-- `estimateTokenCount`: `Math.ceil(text.length / 4)`. -/
def estimateTokenCount (text : List Char) : Nat :=
  (text.length + 3) / 4

/-- `MAX_CONTEXT_TOKENS` from the source. -/
def MAX_CONTEXT_TOKENS : Nat := 50000

/-- The section separator `"\n\n---\n\n"` the builder joins with. -/
def SEP : List Char :=
  str "\n\n---\n\n"

/-- One step of building a JS `Map`-backed counter: `map.set(k, (map.get(k) || 0) + 1)`
keeps the key's original insertion position. -/
def bumpCount {K : Type} [BEq K] : List (K × Nat) → K → List (K × Nat)
  | [], k => [(k, 1)]
  | (k', c) :: rest, k =>
      if k == k' then (k', c + 1) :: rest else (k', c) :: bumpCount rest k

/-- Insert into a key-sorted list (ascending first component). -/
def insertByKey (p : Nat × Nat) : List (Nat × Nat) → List (Nat × Nat)
  | [] => [p]
  | q :: rest => if p.1 < q.1 then p :: q :: rest else q :: insertByKey p rest

/-- `Array.sort((a, b) => a[0] - b[0])` on the status-code entries (keys are
distinct, so comparator ties never arise). -/
def sortByKey : List (Nat × Nat) → List (Nat × Nat)
  | [] => []
  | p :: rest => insertByKey p (sortByKey rest)

/-- `buildSummarySection` from the source. -/
def buildSummarySection (requests : List CtxRequest) : List Char :=
  let methods := requests.foldl (fun m r => bumpCount m r.method) []
  let statusCodes := requests.foldl (fun m r => bumpCount m r.status) []
  let totalDuration := requests.foldl (fun acc r => acc + r.duration) 0
  let totalSize := requests.foldl (fun acc r => acc + r.responseBodySize) 0
  let graphqlCount := requests.foldl (fun acc r => if r.isGraphQL then acc + 1 else acc) 0
  let websocketCount := requests.foldl (fun acc r => if r.isWebSocket then acc + 1 else acc) 0
  let errorCount := requests.foldl (fun acc r => if r.status ≥ 400 then acc + 1 else acc) 0
  let methodsStr := joinSep (str ", ")
    (methods.map (fun mc => mc.1 ++ str ": " ++ natToChars mc.2))
  let statusStr := joinSep (str ", ")
    ((sortByKey statusCodes).map (fun sc => natToChars sc.1 ++ str ": " ++ natToChars sc.2))
  let summary :=
    str "# Request Summary\n\n- **Total Requests**: " ++ natToChars requests.length ++
    str "\n- **Methods**: " ++ methodsStr ++
    str "\n- **Status Codes**: " ++ statusStr ++
    str "\n- **Total Duration**: " ++ formatDuration totalDuration ++
    str "\n- **Total Response Size**: " ++ formatBytes totalSize
  let summary := if errorCount > 0 then
    summary ++ str "\n- **Errors**: " ++ natToChars errorCount else summary
  let summary := if graphqlCount > 0 then
    summary ++ str "\n- **GraphQL Requests**: " ++ natToChars graphqlCount else summary
  if websocketCount > 0 then
    summary ++ str "\n- **WebSocket Connections**: " ++ natToChars websocketCount
  else summary

/-- `getBodyLanguage` from the source. -/
def getBodyLanguage (contentType : List Char) : List Char :=
  if contentType = [] then []
  else
    let ct := contentType.map Char.toLower
    if containsL (str "json") ct then str "json"
    else if containsL (str "xml") ct then str "xml"
    else if containsL (str "html") ct then str "html"
    else if containsL (str "javascript") ct then str "javascript"
    else if containsL (str "css") ct then str "css"
    else if containsL (str "graphql") ct then str "graphql"
    else []

/-- JS object property access `headers[key] || ""` (keys are distinct in a JS
object). -/
def lookupHeader (headers : List (List Char × List Char)) (key : List Char) : List Char :=
  match headers.find? (fun kv => kv.1 == key) with
  | some kv => kv.2
  | none => []

/-- `formatBody` from the source.  `pj body` models the `try JSON.parse` /
`JSON.stringify(parsed, null, 2)` pretty-print attempt (`none` = parse threw,
keep the body as is); it is a parameter because JSON text parsing is out of
scope. -/
def formatBody (pj : List Char → Option (List Char)) (body : List Char)
    (originalSize : Nat) : List Char :=
  let body := match pj body with
    | some pretty => pretty
    | none => body
  if body.length > 10000 then
    body.take 10000 ++ str "\n\n... [Truncated - original size: " ++
      formatBytes originalSize ++ str "]"
  else body

/-- `buildRequestSection` from the source: the `lines` array, joined by
newlines. -/
def buildRequestSection (pj : List Char → Option (List Char)) (request : CtxRequest)
    (index : Nat) : List Char :=
  let lines : List (List Char) :=
    [str "# Request " ++ natToChars index ++ str ": " ++ request.method ++ str " " ++
      request.url,
      [],
      str "## Basic Info",
      str "- **Status**: " ++ natToChars request.status ++ str " " ++ request.statusText,
      str "- **Duration**: " ++ formatDuration request.duration,
      str "- **Response Size**: " ++ formatBytes request.responseBodySize] ++
    (if request.isGraphQL then [str "- **Type**: GraphQL"] else []) ++
    (if request.isWebSocket then [str "- **Type**: WebSocket"] else []) ++
    [[]] ++
    (if request.requestHeaders.isEmpty then []
      else [str "## Request Headers", str "```"] ++
        request.requestHeaders.map (fun kv => kv.1 ++ str ": " ++ kv.2) ++
        [str "```", []]) ++
    (match request.requestBody with
      | some body =>
          if body = [] then []
          else [str "## Request Body",
            str "```" ++ getBodyLanguage (lookupHeader request.requestHeaders
              (str "content-type")),
            formatBody pj body request.requestBodySize,
            str "```", []]
      | none => []) ++
    (if request.responseHeaders.isEmpty then []
      else [str "## Response Headers", str "```"] ++
        request.responseHeaders.map (fun kv => kv.1 ++ str ": " ++ kv.2) ++
        [str "```", []]) ++
    (match request.responseBody with
      | some body =>
          if body = [] then []
          else [str "## Response Body",
            str "```" ++ getBodyLanguage request.responseMimeType,
            formatBody pj body request.responseBodySize,
            str "```"]
      | none => [])
  joinSep (str "\n") lines

/-- The per-request sections, in input order, numbered from 1. -/
def requestSections (pj : List Char → Option (List Char))
    (requests : List CtxRequest) : List (List Char) :=
  requests.enum.map (fun ir => buildRequestSection pj ir.2 (ir.1 + 1))

/-- The full (pre-truncation) joined document: the summary section, then one
section per request, joined by the separator. -/
def fullContext (pj : List Char → Option (List Char))
    (requests : List CtxRequest) : List Char :=
  joinSep SEP (buildSummarySection requests :: requestSections pj requests)

/-- `truncateContext` from the source. -/
def truncateContext (context : List Char) (maxTokens : Nat) : List Char :=
  let maxChars := maxTokens * 4
  if context.length ≤ maxChars then context
  else
    match firstIdx SEP context with
    | none => context.take maxChars ++ str "\n\n[Context truncated due to size]"
    | some summaryEnd =>
      let summary := context.take summaryEnd
      let remaining := context.drop summaryEnd
      let remainingMaxChars : Int := (maxChars : Int) - summary.length - 50
      if remainingMaxChars ≤ 0 then
        summary ++ str "\n\n[Request details truncated due to size]"
      else
        let truncatedRemaining := remaining.take remainingMaxChars.toNat
        match lastIdx SEP truncatedRemaining with
        | some b =>
            if 0 < b then
              summary ++ truncatedRemaining.take b ++
                str "\n\n[Some requests truncated due to size]"
            else
              summary ++ truncatedRemaining ++ str "\n\n[Context truncated due to size]"
        | none => summary ++ truncatedRemaining ++ str "\n\n[Context truncated due to size]"

/-- `buildContext` from the source: empty input short-circuits, otherwise the
joined document is truncated when its token estimate exceeds the budget. -/
def buildContext (pj : List Char → Option (List Char))
    (requests : List CtxRequest) : List Char :=
  if requests.length = 0 then str "No requests provided."
  else if estimateTokenCount (fullContext pj requests) > MAX_CONTEXT_TOKENS then
    truncateContext (fullContext pj requests) MAX_CONTEXT_TOKENS
  else fullContext pj requests

/-- The three truncation notices the source can append. -/
def truncationNotices : List (List Char) :=
  [str "\n\n[Context truncated due to size]",
    str "\n\n[Request details truncated due to size]",
    str "\n\n[Some requests truncated due to size]"]

/-- C9: building a context from zero records yields the literal
`"No requests provided."` document, whose token estimate is 6 (near zero) and
below the truncation budget; `buildContext` is a total function, so it never
raises on any input list. -/
theorem claim_buildContext_empty (pj : List Char → Option (List Char)) :
    buildContext pj [] = str "No requests provided." ∧
    estimateTokenCount (buildContext pj []) = 6 ∧
    ¬ estimateTokenCount (buildContext pj []) > MAX_CONTEXT_TOKENS := by
  have h : buildContext pj [] = str "No requests provided." := rfl
  refine ⟨h, ?_, ?_⟩ <;> rw [h] <;> decide

/-! ### Occurrence machinery for the truncation proofs -/

theorem pfx_take (l : List Char) (n : Nat) : l.take n <+: l :=
  ⟨l.drop n, List.take_append_drop n l⟩

theorem pfx_trans {a b c : List Char} (h1 : a <+: b) (h2 : b <+: c) : a <+: c := by
  rcases h1 with ⟨u, rfl⟩
  rcases h2 with ⟨v, rfl⟩
  exact ⟨u ++ v, by simp⟩

/-- The result of `pfxB` only depends on the pattern-length window of the
subject. -/
theorem pfxB_take_pat : ∀ (p l : List Char), pfxB p (l.take p.length) = pfxB p l
  | [], l => by simp [pfxB]
  | a :: as, [] => by simp
  | a :: as, b :: bs => by
    simp only [List.length_cons, List.take_succ_cons, pfxB]
    rw [pfxB_take_pat as bs]

theorem pfxB_append_window {p x : List Char} (rest : List Char) {i : Nat}
    (h : i + p.length ≤ x.length) :
    pfxB p ((x ++ rest).drop i) = pfxB p (x.drop i) := by
  rw [← pfxB_take_pat p ((x ++ rest).drop i), ← pfxB_take_pat p (x.drop i)]
  congr 1
  rw [List.drop_append_of_le_length (by omega : i ≤ x.length),
    List.take_append_of_le_length (by simp; omega : p.length ≤ (x.drop i).length)]

theorem firstIdx_none_pfxB (pat : List Char) :
    ∀ (l : List Char), firstIdx pat l = none → ∀ i, pfxB pat (l.drop i) = false
  | [] => by
    intro h i
    by_cases hp : pat = []
    · subst hp; simp [firstIdx] at h
    · simp only [List.drop_nil]
      cases pat with
      | nil => exact absurd rfl hp
      | cons p ps => rfl
  | c :: cs => by
    intro h i
    unfold firstIdx at h
    by_cases hpf : pfxB pat (c :: cs) = true
    · rw [if_pos hpf] at h; exact absurd h (by simp)
    · rw [if_neg hpf] at h
      have h' : firstIdx pat cs = none := by
        cases hfi : firstIdx pat cs with
        | none => rfl
        | some j => rw [hfi] at h; simp at h
      cases i with
      | zero => simpa using hpf
      | succ i' => exact firstIdx_none_pfxB pat cs h' i'

theorem firstIdx_some_spec (pat : List Char) :
    ∀ (l : List Char) (j : Nat), firstIdx pat l = some j →
      pfxB pat (l.drop j) = true ∧ ∀ i, i < j → pfxB pat (l.drop i) = false
  | [], j => by
    intro h
    unfold firstIdx at h
    by_cases hp : pat = []
    · rw [if_pos hp] at h
      injection h with hj
      subst hj
      subst hp
      exact ⟨rfl, fun i hi => absurd hi (by omega)⟩
    · rw [if_neg hp] at h
      exact absurd h (by simp)
  | c :: cs, j => by
    intro h
    unfold firstIdx at h
    by_cases hpf : pfxB pat (c :: cs) = true
    · rw [if_pos hpf] at h
      injection h with hj
      subst hj
      exact ⟨hpf, fun i hi => absurd hi (by omega)⟩
    · rw [if_neg hpf] at h
      cases hfi : firstIdx pat cs with
      | none => rw [hfi] at h; exact absurd h (by simp)
      | some j' =>
        rw [hfi] at h
        simp only [Option.map_some', Option.some.injEq] at h
        subst h
        obtain ⟨h1, h2⟩ := firstIdx_some_spec pat cs j' hfi
        refine ⟨by simpa using h1, ?_⟩
        intro i hi
        cases i with
        | zero => simpa using hpf
        | succ i' => exact h2 i' (by omega)

theorem firstIdx_eq_some_of (pat : List Char) :
    ∀ (j : Nat) (l : List Char), pfxB pat (l.drop j) = true →
      (∀ i, i < j → pfxB pat (l.drop i) = false) → firstIdx pat l = some j
  | 0, l => by
    intro h _
    cases l with
    | nil =>
      simp only [List.drop_nil] at h
      have hp : pat = [] := by
        cases pat with
        | nil => rfl
        | cons p ps => exact absurd h (by simp [pfxB])
      simp [firstIdx, hp]
    | cons c cs =>
      simp only [List.drop_zero] at h
      unfold firstIdx
      rw [if_pos (by simpa using h)]
  | j + 1, l => by
    intro h hno
    cases l with
    | nil =>
      simp only [List.drop_nil] at h
      have h0 := hno 0 (by omega)
      simp only [List.drop_nil] at h0
      rw [h0] at h
      exact absurd h (by simp)
    | cons c cs =>
      unfold firstIdx
      rw [if_neg (by simpa using hno 0 (by omega))]
      rw [firstIdx_eq_some_of pat j cs (by simpa using h)
        (fun i hi => by simpa using hno (i + 1) (by omega))]
      rfl

theorem firstIdx_append_left {pat x : List Char} (rest : List Char) {j : Nat}
    (h : firstIdx pat x = some j) (hj : j + pat.length ≤ x.length) :
    firstIdx pat (x ++ rest) = some j := by
  obtain ⟨h1, h2⟩ := firstIdx_some_spec pat x j h
  apply firstIdx_eq_some_of
  · rw [pfxB_append_window rest hj]
    exact h1
  · intro i hi
    rw [pfxB_append_window rest (by omega)]
    exact h2 i hi

theorem find?_rev_range_zero (f : Nat → Bool) :
    ∀ n, (∀ i, 1 ≤ i → i ≤ n → f i = false) → f 0 = true →
      ((List.range (n + 1)).reverse.find? f) = some 0
  | 0 => by
    intro _ h0
    have : List.range 1 = [0] := rfl
    rw [this]
    simp [List.find?, h0]
  | n + 1 => by
    intro hno h0
    have hr : (List.range (n + 2)).reverse = (n + 1) :: (List.range (n + 1)).reverse := by
      rw [List.range_succ, List.reverse_append]
      rfl
    rw [hr, List.find?_cons, hno (n + 1) (by omega) (by omega)]
    exact find?_rev_range_zero f n (fun i h1 h2 => hno i h1 (by omega)) h0

theorem lastIdx_eq_zero {pat l : List Char} (h0 : pfxB pat l = true)
    (hno : ∀ i, 1 ≤ i → pfxB pat (l.drop i) = false) :
    lastIdx pat l = some 0 := by
  unfold lastIdx
  apply find?_rev_range_zero
  · intro i h1 _
    exact hno i h1
  · simpa using h0

theorem pfxB_replicate_false {pat : List Char} {c : Char} (hhead : pat.head? ≠ some c)
    (hp : pat ≠ []) (m : Nat) : pfxB pat (List.replicate m c) = false := by
  cases pat with
  | nil => exact absurd rfl hp
  | cons p ps =>
    cases m with
    | zero => rfl
    | succ m' =>
      rw [List.replicate_succ]
      have hpc : (p == c) = false := by
        simp only [List.head?_cons, ne_eq, Option.some.injEq] at hhead
        simpa using hhead
      simp [pfxB, hpc]

/-- No occurrence of `pat` strictly inside `x ++ replicate K c` past position 0,
given a decidable bounded check on `x ++ replicate pat.length c` and that `pat`
cannot start inside the replicated tail. -/
theorem no_occ_append_replicate {pat x : List Char} {c : Char} {K : Nat}
    (hp : pat ≠ []) (hhead : pat.head? ≠ some c) (hK : pat.length ≤ K)
    (hcheck : ∀ i, 1 ≤ i → i ≤ x.length →
      pfxB pat ((x ++ List.replicate pat.length c).drop i) = false) :
    ∀ i, 1 ≤ i → pfxB pat ((x ++ List.replicate K c).drop i) = false := by
  intro i h1
  by_cases hx : i ≤ x.length
  · have key : ((x ++ List.replicate K c).drop i).take pat.length =
        ((x ++ List.replicate pat.length c).drop i).take pat.length := by
      rw [List.drop_append_of_le_length hx, List.drop_append_of_le_length hx]
      by_cases hlen : pat.length ≤ (x.drop i).length
      · rw [List.take_append_of_le_length hlen, List.take_append_of_le_length hlen]
      · have hsplit : pat.length = (x.drop i).length + (pat.length - (x.drop i).length) := by
          omega
        rw [hsplit, List.take_append, List.take_append, List.take_replicate,
          List.take_replicate]
        have harg : (pat.length - (x.drop i).length) ⊓ K =
            (pat.length - (x.drop i).length) ⊓
              ((x.drop i).length + (pat.length - (x.drop i).length)) := by
          omega
        rw [harg]
    rw [← pfxB_take_pat, key, pfxB_take_pat]
    exact hcheck i h1 hx
  · have hd : (x ++ List.replicate K c).drop i = List.replicate (K - (i - x.length)) c := by
      have hi : i = x.length + (i - x.length) := by omega
      rw [hi, List.drop_append, List.drop_replicate]
      have harg : x.length + (i - x.length) - x.length = i - x.length := by omega
      rw [harg]
    rw [hd]
    exact pfxB_replicate_false hhead hp _

/-- Shape of `truncateContext` on a document that decomposes as a pre-separator
part followed by separator-joined content, when the first separator occurrence
sits exactly at the end of that part: the result is the part, then a prefix of
the remaining content, then one of the three truncation notices. -/
theorem truncateContext_decomp (S rest : List Char)
    (hlen : (S ++ (SEP ++ rest)).length > 200000)
    (hfi : firstIdx SEP (S ++ (SEP ++ rest)) = some S.length) :
    ∃ t notice, notice ∈ truncationNotices ∧
      truncateContext (S ++ (SEP ++ rest)) 50000 = S ++ (t ++ notice) ∧
      t <+: (SEP ++ rest) := by
  unfold truncateContext
  rw [if_neg (by omega)]
  rw [hfi]
  dsimp only
  rw [List.take_left, List.drop_left]
  by_cases hrm : (((50000 * 4 : Nat) : Int) - (S.length : Int) - 50) ≤ 0
  · rw [if_pos hrm]
    exact ⟨[], str "\n\n[Request details truncated due to size]",
      List.mem_cons_of_mem _ (List.mem_cons_self _ _),
      by rw [List.nil_append], ⟨SEP ++ rest, rfl⟩⟩
  · rw [if_neg hrm]
    cases hli : lastIdx SEP ((SEP ++ rest).take
        (((50000 * 4 : Nat) : Int) - (S.length : Int) - 50).toNat) with
    | none =>
      dsimp only
      rw [List.append_assoc]
      exact ⟨_, _, List.mem_cons_self _ _, rfl, pfx_take _ _⟩
    | some b =>
      dsimp only
      by_cases hb : 0 < b
      · rw [if_pos hb, List.append_assoc]
        exact ⟨_, _, List.mem_cons_of_mem _ (List.mem_cons_of_mem _ (List.mem_cons_self _ _)),
          rfl, pfx_trans (pfx_take _ _) (pfx_take _ _)⟩
      · rw [if_neg hb, List.append_assoc]
        exact ⟨_, _, List.mem_cons_self _ _, rfl, pfx_take _ _⟩

/-- C4 amended: whenever Build's token estimate exceeds the 50,000-token budget
(and the summary section does not itself end in a fragment that completes a
separator — the `hsep` hypothesis, automatic for realistic field values), the
returned document is the summary section in full, followed by a prefix of the
separator-joined request sections, followed by an explicit truncation notice.
The cut is NOT always at a section boundary: when no boundary beyond the one
right after the summary fits the character window, the first request section is
cut mid-section (see the counterexample). -/
theorem claim_truncation_amended (pj : List Char → Option (List Char))
    (rs : List CtxRequest) (hne : rs ≠ [])
    (hover : estimateTokenCount (fullContext pj rs) > MAX_CONTEXT_TOKENS)
    (hsep : firstIdx SEP (buildSummarySection rs ++ SEP) =
      some (buildSummarySection rs).length) :
    ∃ t notice, notice ∈ truncationNotices ∧
      buildContext pj rs = buildSummarySection rs ++ (t ++ notice) ∧
      t <+: (SEP ++ joinSep SEP (requestSections pj rs)) := by
  obtain ⟨r, rs', rfl⟩ : ∃ r rs', rs = r :: rs' := by
    cases rs with
    | nil => exact absurd rfl hne
    | cons r rs' => exact ⟨r, rs', rfl⟩
  have hsections : requestSections pj (r :: rs') =
      buildRequestSection pj r 1 ::
        (List.enumFrom 1 rs').map (fun ir => buildRequestSection pj ir.2 (ir.1 + 1)) := rfl
  have hfull : fullContext pj (r :: rs') =
      buildSummarySection (r :: rs') ++
        (SEP ++ joinSep SEP (requestSections pj (r :: rs'))) := by
    unfold fullContext
    rw [hsections, joinSep]
    simp [List.append_assoc]
  have hlen : (fullContext pj (r :: rs')).length > 200000 := by
    unfold estimateTokenCount MAX_CONTEXT_TOKENS at hover
    omega
  have hbuild : buildContext pj (r :: rs') =
      truncateContext (fullContext pj (r :: rs')) 50000 := by
    unfold buildContext
    rw [if_neg (by simp), if_pos hover]
    rfl
  have hfi : firstIdx SEP (fullContext pj (r :: rs')) =
      some (buildSummarySection (r :: rs')).length := by
    rw [hfull, ← List.append_assoc]
    refine firstIdx_append_left _ hsep ?_
    have h7 : SEP.length = 7 := rfl
    simp [h7]
  rw [hfull] at hfi hlen
  obtain ⟨t, notice, hn, heq, hpfx⟩ := truncateContext_decomp
    (buildSummarySection (r :: rs')) (joinSep SEP (requestSections pj (r :: rs')))
    hlen hfi
  refine ⟨t, notice, hn, ?_, hpfx⟩
  rw [hbuild, hfull, heq]

/-! ### C4 counterexample: a first request section larger than the window -/

/-- A pretty-print model in which `JSON.parse` always throws (no body in the
counterexample record is ever inspected anyway). -/
def pjNone : List Char → Option (List Char) :=
  fun _ => none

/-- A sanitized record whose single request header carries an `n`-character
value, producing one oversized request section. -/
def hugeReqN (n : Nat) : CtxRequest :=
  { id := str "1"
    timestamp := 0
    method := str "GET"
    url := str "http://a"
    status := 200
    statusText := str "OK"
    duration := 0
    requestHeaders := [(str "h", List.replicate n 'a')]
    requestBody := none
    requestBodySize := 0
    responseHeaders := []
    responseBody := none
    responseBodySize := 0
    responseMimeType := []
    isGraphQL := false
    isWebSocket := false }

/-- The summary section the builder emits for `[hugeReqN n]` (independent of
`n`). -/
def SUMLIT : List Char :=
  str "# Request Summary\n\n- **Total Requests**: 1\n- **Methods**: GET: 1\n- **Status Codes**: 200: 1\n- **Total Duration**: 0ms\n- **Total Response Size**: 0 B"

/-- The request section of `hugeReqN n` up to the huge header value. -/
def SECA : List Char :=
  str "# Request 1: GET http://a\n\n## Basic Info\n- **Status**: 200 OK\n- **Duration**: 0ms\n- **Response Size**: 0 B\n\n## Request Headers\n```\nh: "

/-- The request section of `hugeReqN n` after the huge header value. -/
def SECB : List Char :=
  str "\n```\n"

/-- The separator followed by `SECA`: what remains of the document after the
summary section. -/
def DROPA : List Char :=
  str "\n\n---\n\n" ++ SECA

set_option maxRecDepth 8000

theorem summary_huge (n : Nat) : buildSummarySection [hugeReqN n] = SUMLIT := by
  unfold buildSummarySection
  simp only [hugeReqN, List.foldl, List.length_singleton, List.map]
  rfl

theorem section_huge (n : Nat) :
    buildRequestSection pjNone (hugeReqN n) 1 = SECA ++ (List.replicate n 'a' ++ SECB) := by
  unfold buildRequestSection
  simp only [hugeReqN, List.map, List.isEmpty_cons, List.isEmpty_nil,
    Bool.false_eq_true, if_false, if_true, List.append_nil, List.nil_append,
    show formatDuration 0 = str "0ms" from by decide,
    show formatBytes 0 = str "0 B" from by decide,
    show natToChars 200 = str "200" from by decide,
    show natToChars 1 = str "1" from by decide]
  simp only [List.cons_append, List.nil_append]
  simp only [joinSep]
  simp only [List.append_assoc]
  rfl

theorem sections_huge (n : Nat) :
    requestSections pjNone [hugeReqN n] =
      [SECA ++ (List.replicate n 'a' ++ SECB)] := by
  unfold requestSections
  simp only [List.enum, List.enumFrom, List.map, Nat.zero_add]
  rw [section_huge n]

theorem fullContext_huge (n : Nat) :
    fullContext pjNone [hugeReqN n] =
      (SUMLIT ++ DROPA) ++ (List.replicate n 'a' ++ SECB) := by
  unfold fullContext
  rw [sections_huge n, summary_huge n]
  simp only [joinSep, DROPA, SEP, List.append_assoc]

theorem fullContext_huge_length :
    (fullContext pjNone [hugeReqN 250000]).length = 250294 := by
  rw [fullContext_huge]
  simp only [List.length_append, List.length_replicate,
    show SUMLIT.length = 148 from by decide,
    show DROPA.length = 141 from by decide,
    show SECB.length = 5 from by decide]

theorem estimateTokenCount_eq (s : List Char) :
    estimateTokenCount s = (s.length + 3) / 4 := rfl

/-- The oversized single-section document exceeds the token budget. -/
theorem hugeOverflow :
    estimateTokenCount (fullContext pjNone [hugeReqN 250000]) > MAX_CONTEXT_TOKENS := by
  have h : estimateTokenCount (fullContext pjNone [hugeReqN 250000]) = 62574 := by
    rw [estimateTokenCount_eq, fullContext_huge_length]
  rw [h]
  decide

/-- The first separator occurrence in the huge document is right after the
summary. -/
theorem hugeSummarySep :
    firstIdx SEP (buildSummarySection [hugeReqN 250000] ++ SEP) =
      some (buildSummarySection [hugeReqN 250000]).length := by
  rw [summary_huge]
  decide

/-- What `buildContext` actually returns on the huge record: the summary, the
separator, and a 199661-character cut landing inside the first (and only)
request section, then the generic truncation notice. -/
theorem buildContext_huge_eq :
    buildContext pjNone [hugeReqN 250000] =
      SUMLIT ++ ((DROPA ++ List.replicate 199661 'a') ++
        str "\n\n[Context truncated due to size]") := by
  have hbuild : buildContext pjNone [hugeReqN 250000] =
      truncateContext (fullContext pjNone [hugeReqN 250000]) 50000 := by
    unfold buildContext
    rw [if_neg (by simp), if_pos hugeOverflow]
    rfl
  rw [hbuild, fullContext_huge]
  unfold truncateContext
  rw [if_neg (by
    simp only [List.length_append, List.length_replicate,
      show SUMLIT.length = 148 from by decide,
      show DROPA.length = 141 from by decide,
      show SECB.length = 5 from by decide]
    omega)]
  have hfi : firstIdx SEP ((SUMLIT ++ DROPA) ++ (List.replicate 250000 'a' ++ SECB)) =
      some 148 := by
    refine firstIdx_append_left _ ?_ ?_
    · decide
    · decide
  rw [hfi]
  dsimp only
  have htake : ((SUMLIT ++ DROPA) ++ (List.replicate 250000 'a' ++ SECB)).take 148 =
      SUMLIT := by
    rw [List.take_append_of_le_length (by decide)]
    decide
  have hdrop : ((SUMLIT ++ DROPA) ++ (List.replicate 250000 'a' ++ SECB)).drop 148 =
      DROPA ++ (List.replicate 250000 'a' ++ SECB) := by
    rw [List.drop_append_of_le_length (by decide)]
    rw [show (SUMLIT ++ DROPA).drop 148 = DROPA from by decide]
  rw [htake, hdrop]
  rw [if_neg (by decide)]
  have htn : (((50000 * 4 : Nat) : Int) - (SUMLIT.length : Int) - 50).toNat = 199802 := by
    decide
  rw [htn]
  have htr : (DROPA ++ (List.replicate 250000 'a' ++ SECB)).take 199802 =
      DROPA ++ List.replicate 199661 'a' := by
    rw [show (199802 : Nat) = DROPA.length + 199661 from by decide, List.take_append]
    rw [List.take_append_of_le_length (by rw [List.length_replicate]; omega)]
    rw [List.take_replicate]
    rfl
  rw [htr]
  have hlast : lastIdx SEP (DROPA ++ List.replicate 199661 'a') = some 0 := by
    apply lastIdx_eq_zero
    · rw [← pfxB_take_pat, List.take_append_of_le_length (by decide)]
      decide
    · have hall : (List.range (DROPA.length + 1)).all
          (fun i => decide (i = 0) ||
            !(pfxB SEP ((DROPA ++ List.replicate SEP.length 'a').drop i))) = true := by
        decide
      refine no_occ_append_replicate (by decide) (by decide) (by decide) ?_
      intro i h1 h2
      have hmem : i ∈ List.range (DROPA.length + 1) := List.mem_range.mpr (by omega)
      have := List.all_eq_true.mp hall i hmem
      simp only [Bool.or_eq_true, decide_eq_true_eq, Bool.not_eq_true'] at this
      rcases this with h0 | hfalse
      · omega
      · exact hfalse
  rw [hlast]
  dsimp only
  rw [if_neg (by omega)]
  rw [List.append_assoc]

/-- Counterexample to C4 as stated: on this record the token estimate exceeds
the budget, yet the returned document is NOT of the form
`summary ++ whole leading request sections ++ notice` for any section count
`k` and any of the three notices — the cut lands inside the first request
section.  (Shown by comparing lengths: the result has length 199983, while the
candidate shapes have length at most 198 for `k = 0` and at least 250294 for
`k ≥ 1`.) -/
theorem claim_truncation_counterexample :
    estimateTokenCount (fullContext pjNone [hugeReqN 250000]) > MAX_CONTEXT_TOKENS ∧
    ¬ ∃ (k : Nat) (notice : List Char), notice ∈ truncationNotices ∧
        buildContext pjNone [hugeReqN 250000] =
          joinSep SEP (buildSummarySection [hugeReqN 250000] ::
            (requestSections pjNone [hugeReqN 250000]).take k) ++ notice := by
  refine ⟨hugeOverflow, ?_⟩
  rintro ⟨k, notice, hn, heq⟩
  have hnl : notice.length ≤ 50 := by
    simp only [truncationNotices, List.mem_cons, List.not_mem_nil, or_false] at hn
    rcases hn with rfl | rfl | rfl <;> decide
  rw [buildContext_huge_eq, summary_huge, sections_huge] at heq
  have hlhs := congrArg List.length heq
  simp only [List.length_append, List.length_replicate,
    show SUMLIT.length = 148 from by decide,
    show DROPA.length = 141 from by decide,
    show SECA.length = 134 from by decide,
    show SECB.length = 5 from by decide,
    show (str "\n\n[Context truncated due to size]").length = 33 from by decide] at hlhs
  cases k with
  | zero =>
    simp only [List.take_zero, joinSep, List.length_append,
      show SUMLIT.length = 148 from by decide] at hlhs
    omega
  | succ k' =>
    simp only [List.take_succ_cons, List.take_nil, joinSep, List.length_append,
      List.length_replicate,
      show SUMLIT.length = 148 from by decide,
      show SEP.length = 7 from by decide,
      show SECA.length = 134 from by decide,
      show SECB.length = 5 from by decide] at hlhs
    omega

/-- Witness for the amended C4 at the huge record. -/
theorem claim_truncation_amended_witness :
    ([hugeReqN 250000] ≠ ([] : List CtxRequest)) ∧
    estimateTokenCount (fullContext pjNone [hugeReqN 250000]) > MAX_CONTEXT_TOKENS ∧
    (firstIdx SEP (buildSummarySection [hugeReqN 250000] ++ SEP) =
      some (buildSummarySection [hugeReqN 250000]).length) ∧
    ∃ t notice, notice ∈ truncationNotices ∧
      buildContext pjNone [hugeReqN 250000] =
        buildSummarySection [hugeReqN 250000] ++ (t ++ notice) ∧
      t <+: (SEP ++ joinSep SEP (requestSections pjNone [hugeReqN 250000])) :=
  ⟨by simp, hugeOverflow, hugeSummarySep,
    claim_truncation_amended pjNone [hugeReqN 250000] (by simp) hugeOverflow hugeSummarySep⟩

end NetLens
